import Mathlib

/-!
Verification of the cosmogony zone pipeline against its specification.

Shallow embedding of the Rust sources: `zone.rs`, `hierarchy_builder.rs`,
`zone_typer.rs`, `additional_zones.rs`, `country_finder.rs`, `merger.rs`,
`postcode_service.rs`.  Geometry (GEOS / geo) is abstracted by opaque `Nat`
handles together with an engine record of (fallible) operations, quantified
over in the theorems; everything else is translated function by function.
-/

namespace Cosmogony

/-- Opaque handle for a `geo_types::Point<f64>`. -/
abbrev Pt := Nat
/-- Opaque handle for a `geo_types::MultiPolygon<f64>`. -/
abbrev MPoly := Nat
/-- Opaque handle for a GEOS geometry (`geos::GGeom` / `geos::Geometry`). -/
abbrev GGeom := Nat
/-- Opaque handle for a `geo_types::Rect<f64>` bounding box. -/
abbrev BRect := Nat

/-- `ZoneType` from `zone.rs`; the variant order is the derived `Ord` order
(`NonAdministrative` is declared last, hence greatest). -/
inductive ZoneType where
  | Suburb
  | CityDistrict
  | City
  | StateDistrict
  | State
  | CountryRegion
  | Country
  | NonAdministrative
deriving DecidableEq, Repr

/-- Position of a variant in the declaration order; Rust's derived `Ord`
compares by this discriminant. -/
def ZoneType.toNat : ZoneType → Nat
  | .Suburb => 0
  | .CityDistrict => 1
  | .City => 2
  | .StateDistrict => 3
  | .State => 4
  | .CountryRegion => 5
  | .Country => 6
  | .NonAdministrative => 7

/-- Strict order on `ZoneType`, as derived by Rust. -/
def ztLt (a b : ZoneType) : Prop := a.toNat < b.toNat

instance (a b : ZoneType) : Decidable (ztLt a b) := by
  unfold ztLt; infer_instance

/-- Rust's derived `Ord` on `Option<ZoneType>`: `None` is below every
`Some`; two `Some`s compare by the inner value.  Encoded as a `Nat` key. -/
def oztKey : Option ZoneType → Nat
  | none => 0
  | some t => t.toNat + 1

/-- `self.zone_type < z.zone_type` on `Option<ZoneType>` (Rust `Ord`). -/
def oztLt (a b : Option ZoneType) : Prop := oztKey a < oztKey b

instance (a b : Option ZoneType) : Decidable (oztLt a b) := by
  unfold oztLt; infer_instance

/-- The `Zone` record of `zone.rs`.  `ZoneIndex` is inlined as a `Nat`;
`Tags` and the `BTreeMap`s are association lists; geometry fields hold
opaque handles. -/
structure Zone where
  id : Nat
  osm_id : String
  admin_level : Option Nat
  zone_type : Option ZoneType
  name : String
  label : String
  international_labels : List (String × String)
  international_names : List (String × String)
  zip_codes : List String
  center : Option Pt
  boundary : Option MPoly
  bbox : Option BRect
  tags : List (String × String)
  center_tags : List (String × String)
  parent : Option Nat
  wikidata : Option String
  is_generated : Bool
deriving DecidableEq, Repr

/-- `Zone::default()` from `zone.rs`. -/
def defaultZone : Zone :=
  { id := 0
    osm_id := ""
    admin_level := none
    zone_type := none
    name := ""
    label := ""
    international_labels := []
    international_names := []
    zip_codes := []
    center := none
    boundary := none
    bbox := none
    tags := []
    center_tags := []
    parent := none
    wikidata := none
    is_generated := true }

/-- `Zone::is_admin` from `zone.rs`. -/
def Zone.isAdmin (z : Zone) : Bool :=
  match z.zone_type with
  | none => false
  | some .NonAdministrative => false
  | some _ => true

/-- `BTreeMap::get` on an association list with `String` keys (first
match; the real map has unique keys). -/
def lookupTag (tags : List (String × String)) (k : String) : Option String :=
  List.lookup k tags

/-! ### Stable insertion sort

`itertools::sorted_by_key` and `Vec::sort_by_key` are stable ascending
sorts; insertion sort placing an element before the first entry that is
not strictly smaller reproduces them. -/

/-- Insert `x` into `l`, skipping entries strictly smaller than `x`. -/
def insertS (lt : α → α → Bool) (x : α) : List α → List α
  | [] => [x]
  | w :: ws => if lt w x then w :: insertS lt x ws else x :: w :: ws

/-- Stable ascending sort by the boolean comparator `lt`. -/
def sortS (lt : α → α → Bool) : List α → List α
  | [] => []
  | x :: xs => insertS lt x (sortS lt xs)

/-! ### Merger (`merger.rs`) -/

/-- The `CosmogonyMerger` state: only the running `id_offset`. -/
structure MergerState where
  idOffset : Nat
deriving DecidableEq, Repr

/-- `CosmogonyMerger::get_updated_id`. -/
def getUpdatedId (st : MergerState) (idx : Nat) : Nat := idx + st.idOffset

/-- One step of `read_cosmogony`'s map: rewrite the zone's id and parent
and track the running max id. -/
def mergeStep (st : MergerState) (acc : List Zone × Nat) (z : Zone) :
    List Zone × Nat :=
  let z1 := { z with id := getUpdatedId st z.id }
  let maxId := max acc.2 z1.id
  let z2 := { z1 with parent := z.parent.map (getUpdatedId st) }
  (acc.1 ++ [z2], maxId)

/-- `CosmogonyMerger::read_cosmogony` on one already-parsed input: the
zones written to the output stream, plus the updated merger state
(`id_offset = max_id + 1`). -/
def readCosmogony (st : MergerState) (input : List Zone) :
    List Zone × MergerState :=
  let r := input.foldl (mergeStep st) ([], 0)
  (r.1, { idOffset := r.2 + 1 })

/-- `CosmogonyMerger::merge_cosmogony` over a list of inputs, starting
from `CosmogonyMerger::default()` (`id_offset = 0`). -/
def mergeCosmogony (files : List (List Zone)) : List Zone :=
  (files.foldl
    (fun acc f =>
      let r := readCosmogony acc.2 f
      (acc.1 ++ r.1, r.2))
    (([] : List Zone), ({ idOffset := 0 } : MergerState))).1

/-! ### Zone typer (`zone_typer.rs`) -/

/-- `CountryAdminTypeRules` (with its `RulesOverrides` inlined):
`type_by_level`, `overrides.contained_by` and `overrides.id_rules`.
The `BTreeMap`s become association lists with unique keys; the
`"{kind}:{osm_id}"` keys are already flattened, as `From<SerdeRulesOverrides>`
produces them. -/
inductive CountryRules where
  | mk :
      List (String × ZoneType) →
      List (String × CountryRules) →
      List (String × Option ZoneType) →
      CountryRules

def CountryRules.typeByLevel : CountryRules → List (String × ZoneType)
  | .mk t _ _ => t

def CountryRules.containedBy : CountryRules → List (String × CountryRules)
  | .mk _ c _ => c

def CountryRules.idRules : CountryRules → List (String × Option ZoneType)
  | .mk _ _ i => i

/-- `BTreeMap::get` on the `contained_by` map (first match; keys unique). -/
def lookupRules : List (String × CountryRules) → String → Option CountryRules
  | [], _ => none
  | (k, r) :: rest, key => if k = key then some r else lookupRules rest key

/-- The `contained_by` scan in `RulesOverrides::get_overrided_type`:
walk the zone's inclusion ancestors and return the first nested rule set
keyed by an ancestor's osm_id. -/
def findContained (all : List Zone) (incl : List Nat)
    (cb : List (String × CountryRules)) : Option CountryRules :=
  ((incl.filterMap (fun idx => all.get? idx)).filterMap
    (fun z => lookupRules cb z.osm_id)).head?

theorem sizeOf_lookupRules {l : List (String × CountryRules)} {key : String}
    {r : CountryRules} (h : lookupRules l key = some r) :
    sizeOf r < sizeOf l := by
  induction l with
  | nil => simp [lookupRules] at h
  | cons p rest ih =>
    obtain ⟨k, v⟩ := p
    by_cases hk : k = key
    · simp [lookupRules, hk] at h
      subst h
      simp
      omega
    · simp [lookupRules, hk] at h
      have := ih h
      simp
      omega

theorem sizeOf_findContained {all : List Zone} {incl : List Nat}
    {cb : List (String × CountryRules)} {r : CountryRules}
    (h : findContained all incl cb = some r) : sizeOf r < sizeOf cb := by
  unfold findContained at h
  have hmem : r ∈ (incl.filterMap (fun idx => all.get? idx)).filterMap
      (fun z => lookupRules cb z.osm_id) := by
    have hc := List.eq_cons_of_mem_head? (Option.mem_def.mpr h)
    rw [hc]
    exact List.mem_cons_self _ _
  obtain ⟨z, _, hz⟩ := List.mem_filterMap.mp hmem
  exact sizeOf_lookupRules hz

theorem sizeOf_containedBy_lt (r : CountryRules) :
    sizeOf r.containedBy < sizeOf r := by
  cases r with
  | mk t c i => simp [CountryRules.containedBy]; omega

/-- `CountryAdminTypeRules::get_zone_type` with
`RulesOverrides::get_overrided_type` inlined (they are mutually
recursive in the source; the pair unfolds to this single function):
1. an `id_rules` entry for the zone's osm_id wins immediately;
2. else, with a non-empty `contained_by` map, the first matching
   ancestor's nested rules are applied recursively — their answer is kept
   only when it is `some`;
3. else the zone's `admin_level` (`0` when absent), as a string, is
   looked up in `type_by_level`. -/
def getZoneType (r : CountryRules) (zone : Zone) (incl : List Nat)
    (all : List Zone) : Option ZoneType :=
  match List.lookup zone.osm_id r.idRules with
  | some o => o
  | none =>
    let fallback := List.lookup (toString (zone.admin_level.getD 0)) r.typeByLevel
    if r.containedBy.isEmpty then fallback
    else
      match hfc : findContained all incl r.containedBy with
      | some rules =>
        match getZoneType rules zone incl all with
        | some t => some t
        | none => fallback
      | none => fallback
termination_by sizeOf r
decreasing_by
  exact Nat.lt_trans (sizeOf_findContained hfc) (sizeOf_containedBy_lt r)

/-- `RulesOverrides::get_overrided_type` (non-recursive statement in
terms of `getZoneType`): `some v` when a specific rule applies (`v` may
itself be `none`, libpostal's way of removing a zone), `none` when no
specific rule applies. -/
def getOverridedType (r : CountryRules) (zone : Zone) (incl : List Nat)
    (all : List Zone) : Option (Option ZoneType) :=
  match List.lookup zone.osm_id r.idRules with
  | some o => some o
  | none =>
    if r.containedBy.isEmpty then none
    else
      match findContained all incl r.containedBy with
      | some rules => (getZoneType rules zone incl all).map some
      | none => none

/-! ### Hierarchy builder (`hierarchy_builder.rs`) -/

/-- `Zone::can_be_child_of`: the candidate parent must be administrative,
and an administrative child must have a strictly smaller `zone_type`
(`Option<ZoneType>` order). -/
def canBeChildOf (self z : Zone) : Bool :=
  z.isAdmin && (!self.isAdmin || decide (oztLt self.zone_type z.zone_type))

/-- One step of `Iterator::min_by_key(|z| z.zone_type)`: keep the
current minimum unless the new element's key is strictly smaller (so the
first minimal element wins ties, as in Rust). -/
def minStep (acc : Option Zone) (c : Zone) : Option Zone :=
  match acc with
  | none => some c
  | some m => if oztKey c.zone_type < oztKey m.zone_type then some c else some m

/-- `min_by_key(|z| z.zone_type)` over a list of candidate parents. -/
def minByKeyOZT (l : List Zone) : Option Zone := l.foldl minStep none

/-- Body of the `build_hierarchy` loop for index `i`: filter the
inclusion candidates through `can_be_child_of`, take the minimum by
`zone_type` and store its id in `parent` (overwriting it, possibly with
`none`). -/
def setParentAt (inclusions : List (List Nat)) (zones : List Zone) (i : Nat) :
    List Zone :=
  match zones[i]? with
  | none => zones
  | some z =>
    let cands := ((inclusions.getD i []).filterMap (fun cIdx => zones[cIdx]?)).filter
      (fun c => canBeChildOf z c)
    zones.set i { z with parent := (minByKeyOZT cands).map (fun c => c.id) }

/-- `build_hierarchy`: the loop over all zone indices. -/
def buildHierarchy (zones : List Zone) (inclusions : List (List Nat)) : List Zone :=
  (List.range zones.length).foldl (setParentAt inclusions) zones

/-- The fields of a zone that the hierarchy builder reads from
candidates: id and zone_type. -/
def sameCore (a b : Zone) : Prop := a.id = b.id ∧ a.zone_type = b.zone_type

/-- What `build_hierarchy` guarantees about a stored parent index `p` of
a child zone, relative to the original zone vector. -/
def parentOk (zones : List Zone) (child : Zone) (p : Nat) : Prop :=
  ∃ q, zones[p]? = some q ∧ q.isAdmin = true ∧
    (child.isAdmin = true → oztLt child.zone_type q.zone_type)

/-- Invariant of the `build_hierarchy` loop after processing the first
`done` indices. -/
def hierInv (zones₀ zs : List Zone) (done : Nat) : Prop :=
  zs.length = zones₀.length ∧
  (∀ (j : Nat) (q : Zone), zs[j]? = some q →
    ∃ q₀, zones₀[j]? = some q₀ ∧ sameCore q q₀) ∧
  (∀ (j : Nat), j < done → ∀ (q : Zone) (p : Nat), zs[j]? = some q →
    q.parent = some p → parentOk zones₀ q p)

/-- `ZoneTyperError` from `zone_typer.rs`. -/
inductive ZoneTyperError where
  | invalidCountry (c : String)
  | unknownLevel (lvl : Option Nat) (c : String)
deriving DecidableEq, Repr

/-- `ZoneTyper::get_zone_type`. -/
def typerGetZoneType (countriesRules : List (String × CountryRules))
    (zone : Zone) (countryCode : String) (incl : List Nat)
    (all : List Zone) : Except ZoneTyperError ZoneType :=
  match List.lookup countryCode countriesRules with
  | none => .error (.invalidCountry countryCode)
  | some countryRules =>
    match getZoneType countryRules zone incl all with
    | some t => .ok t
    | none => .error (.unknownLevel zone.admin_level countryCode)

/-- ASCII lowercase of a string (Rust `str::to_lowercase`; the inputs of
interest — ISO-3166 codes — are ASCII). -/
def strToLower (s : String) : String := String.mk (s.data.map Char.toLower)

/-- ASCII uppercase of a string (Rust `str::to_uppercase`). -/
def strToUpper (s : String) : String := String.mk (s.data.map Char.toUpper)

/-- `read_libpostal_yaml_folder`: each directory entry is a file stem
plus its parse result; unparsable files are skipped and the key is the
upper-cased stem. -/
def readLibpostalYamlFolder (files : List (String × Option CountryRules)) :
    List (String × CountryRules) :=
  files.filterMap (fun f => f.2.map (fun rules => (strToUpper f.1, rules)))

/-! ### Labels (`zone.rs`: `iter_hierarchy`, `create_lbl`,
`format_zip_code`, `compute_labels`) -/

/-- `Zone::iter_hierarchy`: the zone followed by its parent chain.  The
Rust iterator is lazy and panics on an out-of-range parent; here a fuel
bound (any bound at least the chain length) and a missing parent both
end the chain. -/
def iterHierarchy (zones : List Zone) : Nat → Zone → List Zone
  | 0, z => [z]
  | fuel + 1, z =>
    match z.parent with
    | none => [z]
    | some p =>
      match zones[p]? with
      | none => [z]
      | some zp => z :: iterHierarchy zones fuel zp

def dedupConsecAux (prev : String) : List String → List String
  | [] => []
  | x :: xs =>
    if x = prev then dedupConsecAux prev xs else x :: dedupConsecAux x xs

/-- `itertools::dedup`: collapse runs of consecutive equal strings,
keeping the first of each run. -/
def dedupConsec : List String → List String
  | [] => []
  | x :: xs => x :: dedupConsecAux x xs

/-- `Vec::join(", ")`. -/
def joinCommaSep : List String → String
  | [] => ""
  | [x] => x
  | x :: y :: xs => x ++ ", " ++ joinCommaSep (y :: xs)

/-- `format_zip_code` from `zone.rs`: no zip code → empty string, one →
`" (code)"`, several → `" (first-last)"`. -/
def formatZipCode (zipCodes : List String) : String :=
  match zipCodes.length with
  | 0 => ""
  | 1 => " (" ++ zipCodes.head?.getD "" ++ ")"
  | _ + 2 =>
    " (" ++ zipCodes.head?.getD "" ++ "-" ++ zipCodes.getLast?.getD "" ++ ")"

/-- The `hierarchy.first_mut()` mutation in `create_lbl`: append the zip
summary to the first element, if any. -/
def applyZipToFirst (hierarchy : List String) (zips : List String) : List String :=
  match hierarchy with
  | [] => []
  | x :: xs => (x ++ formatZipCode zips) :: xs

/-- `Zone::create_lbl`. -/
def createLbl (zones : List Zone) (fuel : Nat) (z : Zone) (f : Zone → String) :
    String :=
  joinCommaSep
    (applyZipToFirst (dedupConsec ((iterHierarchy zones fuel z).map f)) z.zip_codes)

/-- Lexicographic strict order on lists of characters. -/
def listCharLtB : List Char → List Char → Bool
  | [], [] => false
  | [], _ :: _ => true
  | _ :: _, [] => false
  | a :: as, b :: bs =>
    if a < b then true else if b < a then false else listCharLtB as bs

/-- Boolean strict order on strings (Rust `String: Ord`, byte-wise
lexicographic; on UTF-8 data this is the lexicographic order on code
points, i.e. Lean's `String` order). -/
def strLtB (a b : String) : Bool := listCharLtB a.data b.data

/-- A `BTreeSet<String>` built from an iterator: ascending, duplicate
free. -/
def sortedDedupStrings (l : List String) : List String :=
  dedupConsec (sortS strLtB l)

/-- `Zone::compute_labels`: the default label and one label per language
found in the hierarchy's `international_names`. -/
def computeLabels (zones : List Zone) (fuel : Nat) (z : Zone) : Zone :=
  let label := createLbl zones fuel z (fun w => w.name)
  let allLang := sortedDedupStrings
    (((iterHierarchy zones fuel z).map
      (fun w => w.international_names.map Prod.fst)).flatten)
  { z with
    label := label
    international_labels := allLang.map (fun lang =>
      (lang,
        createLbl zones fuel z
          (fun w => (List.lookup lang w.international_names).getD w.name))) }

/-- The zip-code summary as the spec words it (for the refinement
comparison of C5): none → `""`, single → `" (code)"`, multiple →
`" (first-last)"`. -/
def specZipSummary (zips : List String) : String :=
  match zips with
  | [] => ""
  | [c] => " (" ++ c ++ ")"
  | c :: d :: rest =>
    " (" ++ c ++ "-" ++ ((c :: d :: rest).getLast?.getD "") ++ ")"

/-- The label as the spec words it: the comma-separated,
consecutive-duplicate-collapsed sequence of zone names along the parent
chain starting at the zone, the zip summary appended to the first
element only. -/
def specLabel (zones : List Zone) (fuel : Nat) (z : Zone) : String :=
  match dedupConsec ((iterHierarchy zones fuel z).map (fun w => w.name)) with
  | [] => ""
  | first :: rest => joinCommaSep ((first ++ specZipSummary z.zip_codes) :: rest)

/-! ### Zip codes (`zone.rs`: `Zone::from_osm`;
`postcode_service.rs`: `assign_postcodes_to_zones`) -/

def splitOnSemiAux : List Char → List Char → List String
  | [], acc => [String.mk acc.reverse]
  | c :: rest, acc =>
    if c = ';' then String.mk acc.reverse :: splitOnSemiAux rest []
    else splitOnSemiAux rest (c :: acc)

/-- Rust `str::split(';')`. -/
def splitOnSemi (s : String) : List String := splitOnSemiAux s.data []

/-- The zip-code extraction in `Zone::from_osm` / `from_osm_node`:
split on `;`, drop empty fragments, sort (`itertools::sorted`, which
does NOT deduplicate). -/
def extractZipCodes (zipTag : String) : List String :=
  sortS strLtB ((splitOnSemi zipTag).filter (fun s => s != ""))

/-- A member reference of an OSM relation. -/
structure OsmRef where
  role : String
  member : Nat
deriving DecidableEq, Repr

/-- The parts of `osmpbfreader::Relation` that `Zone::from_osm` reads. -/
structure OsmRelation where
  relId : Nat
  tags : List (String × String)
  refs : List OsmRef
deriving DecidableEq, Repr

/-- `tags.entry(k).or_insert(v)` on the association-list model. -/
def entryOrInsert (tags : List (String × String)) (k v : String) :
    List (String × String) :=
  match List.lookup k tags with
  | some _ => tags
  | none => tags ++ [(k, v)]

/-- The label-node `name:*` tag merge in `Zone::from_osm`. -/
def mergeNameTags (tags nodeTags : List (String × String)) :
    List (String × String) :=
  (nodeTags.filter (fun kv => kv.1.startsWith "name:")).foldl
    (fun t kv => entryOrInsert t kv.1 kv.2) tags

/-- `Zone::from_osm`: skip unnamed relations, parse `admin_level`
(Lean's `String.toNat?` standing in for `str::parse::<u32>`), extract
and sort the zip codes, merge `name:*` tags from the `label` member.
`objects` maps a member id to the tags of its node, when it is one. -/
def fromOsm (relation : OsmRelation)
    (objects : Nat → Option (List (String × String))) (index : Nat) :
    Option Zone :=
  match lookupTag relation.tags "name" with
  | none => none
  | some name =>
    let level := (lookupTag relation.tags "admin_level").bind
      (fun s => s.toNat?)
    let zipCode := match lookupTag relation.tags "addr:postcode" with
      | some v => v
      | none => (lookupTag relation.tags "postal_code").getD ""
    let zipCodes := extractZipCodes zipCode
    let wikidata := lookupTag relation.tags "wikidata"
    let labelNode := (relation.refs.find? (fun r => r.role == "label")).bind
      (fun r => objects r.member)
    let tags := match labelNode with
      | none => relation.tags
      | some nodeTags => mergeNameTags relation.tags nodeTags
    some
      { id := index
        osm_id := "relation:" ++ toString relation.relId
        admin_level := level
        zone_type := none
        name := name
        label := ""
        international_labels := []
        international_names := []
        zip_codes := zipCodes
        center := none
        boundary := none
        bbox := none
        parent := none
        tags := tags
        center_tags := []
        wikidata := wikidata
        is_generated := false }

/-- `assign_postcodes_to_zones`, for one zone.  `matched` abstracts the
postcode R-tree query filtered by the `> 0.05` area-overlap ratio (a
floating-point test on real geometries), in iteration order; the zone is
only filled when it has a boundary, a bbox and no zip codes yet, and the
collected codes are then sorted (`Vec::sort`, no deduplication). -/
def assignPostcodesToZone (matched : List String) (z : Zone) : Zone :=
  if z.boundary.isSome && z.bbox.isSome && z.zip_codes.isEmpty then
    { z with zip_codes := sortS strLtB matched }
  else z

/-! ### Country finder (`country_finder.rs`) -/

/-- The `Country` record: iso code, the zone, and its prepared GEOS
geometry. -/
structure Country where
  iso : String
  zone : Zone
  ggeom : GGeom
deriving DecidableEq, Repr

/-- `CountryFinder::from_iter`: zones carrying the `ISO3166-1:alpha2`
tag become countries; the stored iso code is the LOWER-cased tag
(`country_code.to_lowercase()` in the source).  `prepare` stands for
`Zone::get_prepared_ggeom().unwrap()`. -/
def countryFinderFromIter (prepare : Zone → GGeom) (zones : List Zone) :
    List Country :=
  zones.filterMap (fun z =>
    (lookupTag z.tags "ISO3166-1:alpha2").map (fun countryCode =>
      { iso := strToLower countryCode, zone := z, ggeom := prepare z }))

/-- `-1 * c.zone.admin_level.unwrap_or(0) as i32`, the sort key of
`find_zone_country`. -/
def negLevelKey (c : Country) : Int := -(Int.ofNat (c.zone.admin_level.getD 0))

/-- `CountryFinder::find_zone_country`: candidates from the R-tree
(`rtreeGet`, abstracting `tree.get(bbox)`), sorted by descending
admin_level (stable `sort_by_key`), filtered by
`c.ggeom.contains(zone.boundary)` (`containsO`), first match's iso.
`bboxO` models `MultiPolygon::bbox()`. -/
def findZoneCountry (bboxO : MPoly → Option BRect)
    (rtreeGet : BRect → List Country) (containsO : GGeom → MPoly → Bool)
    (z : Zone) : Option String :=
  match z.boundary with
  | none => none
  | some b =>
    match bboxO b with
    | none => none
    | some r =>
      (((sortS (fun c1 c2 => decide (negLevelKey c1 < negLevelKey c2))
          (rtreeGet r)).filter
        (fun c => containsO c.ggeom b)).head?).map (fun c => c.iso)

/-! ### Voronoi augmentor (`additional_zones.rs`)

Geometry is abstracted by an engine of (fallible) operations over the
opaque handles; `g.intersects(geom).unwrap_or(false)` and
`voronoi.contains(x).unwrap_or(false)` are modelled as total boolean
operations, the `GeosBoundaryCache` as the pure conversion it memoizes. -/

structure GeoEngine where
  toGeos : MPoly → Option GGeom
  pointToGeos : Pt → Option GGeom
  intersects : GGeom → GGeom → Bool
  difference : GGeom → GGeom → Option GGeom
  convertToGeo : GGeom → Option MPoly
  boundingRect : MPoly → Option BRect
  containsPointB : MPoly → Pt → Bool
  createGeometryCollection : List GGeom → Option GGeom
  voronoiOp : GGeom → GGeom → Option GGeom
  numGeometries : GGeom → Option Nat
  getGeometryN : GGeom → Nat → Option GGeom
  containsGeos : GGeom → GGeom → Bool
  intersectionOp : GGeom → GGeom → Option GGeom

/-- `Zone::contains_center`. -/
def containsCenter (eng : GeoEngine) (self other : Zone) : Bool :=
  match self.boundary, other.center with
  | some b, some c => eng.containsPointB b c
  | _, _ => false

/-- `is_city` from `additional_zones.rs`. -/
def isCity (z : Zone) : Bool :=
  z.zone_type == some .City && z.boundary.isSome && !(z.name == "")

/-- `get_parent`: fetch the bbox-intersecting zones from the R-tree
(`tree`), keep those with some `zone_type`, sort ascending by
`zone_type`, keep those containing the place's center, take the first.
Note: there is NO `>= City` filter in the source. -/
def getParent (eng : GeoEngine) (tree : Zone → List Nat) (place : Zone)
    (zones : List Zone) : Option Zone :=
  ((sortS (fun a b => decide (oztLt a.zone_type b.zone_type))
      (((tree place).filterMap (fun idx => zones[idx]?)).filter
        (fun z => z.zone_type.isSome))).filter
    (fun z => containsCenter eng z place)).head?

/-- The parent selection as the claim words it (for the refinement
comparison of C3): candidates are additionally required to have
`zone_type` at least `City`. -/
def getParentSpec (eng : GeoEngine) (tree : Zone → List Nat) (place : Zone)
    (zones : List Zone) : Option Zone :=
  ((sortS (fun a b => decide (oztLt a.zone_type b.zone_type))
      (((tree place).filterMap (fun idx => zones[idx]?)).filter
        (fun z => match z.zone_type with
          | some t => !(decide (ztLt t .City))
          | none => false))).filter
    (fun z => containsCenter eng z place)).head?

/-- The `GeosBoundaryCache` conversion of a town's boundary (memoized in
the source, pure here). -/
def townGeos (eng : GeoEngine) (town : Zone) : Option GGeom :=
  town.boundary.bind eng.toGeos

/-- The `for town in towns` loop of `extrude_existing_town`: subtract
each intersecting town; a failed difference is logged and skipped. -/
def extrudeFold (eng : GeoEngine) (towns : List Zone) (g0 : GGeom) :
    GGeom × Nat :=
  towns.foldl
    (fun acc town =>
      match townGeos eng town with
      | some tg =>
        if eng.intersects acc.1 tg then
          match eng.difference acc.1 tg with
          | some b => (b, acc.2 + 1)
          | none => acc
        else acc
      | none => acc)
    (g0, 0)

/-- `extrude_existing_town`: returns the updated zone and the success
flag (`false` exactly when a conversion to or from GEOS failed). -/
def extrudeExistingTown (eng : GeoEngine) (zone : Zone) (towns : List Zone) :
    Zone × Bool :=
  if towns.isEmpty then (zone, true)
  else
    match zone.boundary with
    | none => (zone, true)
    | some boundary =>
      match eng.toGeos boundary with
      | none => (zone, false)
      | some g0 =>
        if (extrudeFold eng towns g0).2 > 0 then
          match eng.convertToGeo (extrudeFold eng towns g0).1 with
          | some g => ({ zone with boundary := some g }, true)
          | none => (zone, false)
        else (zone, true)

/-- `get_parent_neighbors`: the bbox-intersecting zones that are cities. -/
def getParentNeighbors (tree : Zone → List Nat) (parent : Zone)
    (zones : List Zone) : List Zone :=
  ((tree parent).filterMap (fun idx => zones[idx]?)).filter isCity

/-- `if let Some(ref boundary) = place.boundary { place.bbox =
boundary.bounding_rect(); }`. -/
def updateBboxFromBoundary (eng : GeoEngine) (z : Zone) : Zone :=
  match z.boundary with
  | some b => { z with bbox := eng.boundingRect b }
  | none => z

/-- The enumerated place centers of `compute_voronoi` (its `points`). -/
def voronoiPoints (places : List Zone) : List (Nat × Pt) :=
  places.enum.filterMap (fun ip => ip.2.center.map (fun c => (ip.1, c)))

/-- The converted place centers of `compute_voronoi` (its `geos_points`). -/
def voronoiGeosPoints (eng : GeoEngine) (places : List Zone) :
    List (Nat × GGeom) :=
  (voronoiPoints places).filterMap
    (fun px => (eng.pointToGeos px.2).map (fun g => (px.1, g)))

/-- The single-place seed: the place inherits the parent's boundary and
is parented to it. -/
def seedSingle (place parent : Zone) : Zone :=
  { place with boundary := parent.boundary, parent := some parent.id }

/-- `compute_voronoi` for one parent index and its grouped places. -/
def computeVoronoi (eng : GeoEngine) (tree : Zone → List Nat)
    (parentIdx : Nat) (places : List Zone) (zones : List Zone) : List Zone :=
  match zones[parentIdx]? with
  | none => []
  | some parent =>
    match parent.boundary with
    | none => []
    | some pb =>
      match eng.toGeos pb with
      | none => []
      | some par =>
        if (voronoiPoints places).length == 1 then
          match places.head? with
          | none => []
          | some place0 =>
            if (extrudeExistingTown eng (seedSingle place0 parent)
                (getParentNeighbors tree parent zones)).2 then
              [updateBboxFromBoundary eng
                (extrudeExistingTown eng (seedSingle place0 parent)
                  (getParentNeighbors tree parent zones)).1]
            else []
        else if parent.zone_type == some .Country then []
        else
          match eng.createGeometryCollection
              ((voronoiPoints places).filterMap
                (fun px => eng.pointToGeos px.2)) with
          | none => []
          | some pointsGeom =>
            match eng.voronoiOp pointsGeom par with
            | none => []
            | some voronois =>
              match eng.numGeometries voronois with
              | none => []
              | some len =>
                ((List.range len).filterMap
                  (fun i => eng.getGeometryN voronois i)).filterMap
                  (fun vor =>
                    match (((voronoiGeosPoints eng places).filter
                        (fun px => eng.containsGeos vor px.2)).map
                        Prod.fst).head? with
                    | none => none
                    | some pos0 =>
                      match places[pos0]? with
                      | none => none
                      | some pl =>
                        match eng.intersectionOp vor par with
                        | none => none
                        | some s =>
                          some (updateBboxFromBoundary eng
                            (extrudeExistingTown eng
                              { pl with
                                parent := some parent.id,
                                boundary := eng.convertToGeo s }
                              (getParentNeighbors tree parent zones)).1))

/-- The place→parent pairing and filtering of
`compute_additional_cities`: only typed places, only parents whose
`zone_type` is strictly between `City` and `Country`. -/
def candidatePairs (eng : GeoEngine) (tree : Zone → List Nat)
    (zones places : List Zone) : List (Nat × Zone) :=
  places.filterMap (fun place =>
    if place.zone_type.isNone then none
    else
      match getParent eng tree place zones with
      | none => none
      | some p =>
        match p.zone_type with
        | some t =>
          if decide (ztLt .City t) && decide (ztLt t .Country) then
            some (p.id, place)
          else none
        | none => none)

/-- `map.entry(&parent.id).or_default().push(place)`. -/
def addToGroup : List (Nat × List Zone) → Nat → Zone → List (Nat × List Zone)
  | [], k, v => [(k, [v])]
  | (k0, vs) :: rest, k, v =>
    if k0 == k then (k0, vs ++ [v]) :: rest
    else (k0, vs) :: addToGroup rest k v

/-- The fold/reduce grouping of places by parent id. -/
def groupPairs (ps : List (Nat × Zone)) : List (Nat × List Zone) :=
  ps.foldl (fun m kv => addToGroup m kv.1 kv.2) []

/-- `publish_new_cities`: append the new cities with fresh ids. -/
def publishNewCities (zones : List Zone) (newCities : List Zone) : List Zone :=
  newCities.foldl (fun zs city => zs ++ [{ city with id := zs.length }]) zones

/-- `compute_additional_cities` (with `read_places` output passed in as
`places`): group the places by their filtered parents, compute each
group's Voronoi cities against the original zone vector, then publish
them all. -/
def computeAdditionalCities (eng : GeoEngine) (tree : Zone → List Nat)
    (zones places : List Zone) : List Zone :=
  let groups := (groupPairs (candidatePairs eng tree zones places)).filter
    (fun g => !g.2.isEmpty)
  let newCities := groups.map (fun g => computeVoronoi eng tree g.1 g.2 zones)
  newCities.foldl publishNewCities zones

/-! ### Concrete instances used by witnesses and counterexamples -/

/-- Rule set of the repository's own typer test (`complex_rules`). -/
def testRules : CountryRules :=
  .mk
    [("2", .Country), ("4", .State), ("5", .StateDistrict),
      ("6", .StateDistrict), ("8", .City), ("9", .Suburb)]
    [("relation:big_zone", .mk [("9", .Suburb)] [] [])]
    [("relation:z1", some .CityDistrict), ("relation:z4", none),
      ("relation:z5", some .CityDistrict)]

def zoneZ5 : Zone :=
  { defaultZone with osm_id := "relation:z5", admin_level := some 7 }

/-- A rule set mapping level "0" and holding no overrides. -/
def zeroLevelRules : CountryRules := .mk [("0", .Country)] [] []

/-- A country zone and a state zone contained in it (realised by the
repository's `hierarchy_test`). -/
def wCountry : Zone := { defaultZone with id := 0, zone_type := some .Country }

def wState : Zone := { defaultZone with id := 1, zone_type := some .State }

def wZones : List Zone := [wCountry, wState]

def wIncl : List (List Nat) := [[], [0]]

/-- A relation whose postcode tag lists the same code twice. -/
def dupZipRelation : OsmRelation :=
  { relId := 1
    tags := [("name", "x"), ("addr:postcode", "75;75")]
    refs := [] }

/-- A zone with a boundary and bbox but no zip codes yet. -/
def postcodeTestZone : Zone :=
  { defaultZone with boundary := some 0, bbox := some 0 }

/-- A country zone with a non-administrative zone inside it (realised by
the repository's `hierarchy_test_parent_only_admin` test). -/
def cexNonAdmin : Zone :=
  { defaultZone with id := 1, zone_type := some .NonAdministrative }

def cexZones : List Zone := [wCountry, cexNonAdmin]

/-- An engine on which every geometric operation fails or rejects. -/
def trivEngine : GeoEngine :=
  { toGeos := fun _ => none
    pointToGeos := fun _ => none
    intersects := fun _ _ => false
    difference := fun _ _ => none
    convertToGeo := fun _ => none
    boundingRect := fun _ => none
    containsPointB := fun _ _ => false
    createGeometryCollection := fun _ => none
    voronoiOp := fun _ _ => none
    numGeometries := fun _ => none
    getGeometryN := fun _ _ => none
    containsGeos := fun _ _ => false
    intersectionOp := fun _ _ => none }

/-- A suburb with boundary handle 10 containing point handle 5. -/
def cexSuburb : Zone :=
  { defaultZone with id := 0, zone_type := some .Suburb, boundary := some 10 }

/-- A place node seed at point handle 5. -/
def cexPlace : Zone :=
  { defaultZone with name := "p", zone_type := some .City, center := some 5 }

/-- Engine where boundary 10 contains point 5, converts to geos handle
20, and bounding rects exist. -/
def c6Eng : GeoEngine :=
  { trivEngine with
    containsPointB := fun b p => b == 10 && p == 5
    toGeos := fun b => if b == 10 then some 20
      else if b == 11 then some 21 else none
    boundingRect := fun _ => some 7 }

/-- A StateDistrict parent with boundary handle 10. -/
def c6Parent : Zone :=
  { defaultZone with
    id := 0
    zone_type := some .StateDistrict
    boundary := some 10 }

def c6Zones : List Zone := [c6Parent]

/-- An existing city town with boundary handle 11, whose subtraction
from the parent fails (`difference` errors). -/
def cex7Town : Zone :=
  { defaultZone with
    id := 1
    zone_type := some .City
    boundary := some 11
    name := "t" }

def cex7Zones : List Zone := [c6Parent, cex7Town]

/-- Engine where the parent (20) intersects the town (21) but the
difference operation fails. -/
def cex7Eng : GeoEngine :=
  { c6Eng with
    intersects := fun g t => g == 20 && t == 21
    difference := fun _ _ => none }

/-- The city the augmentor synthesizes from `cexPlace` under
`c6Parent`: the parent's boundary and bbox, parented to it, with the
fresh id 1. -/
def c6NewCity : Zone :=
  { cexPlace with
    id := 1
    boundary := some 10
    parent := some 0
    bbox := some 7 }

/-- A zone carrying the country tag `"FR"` and a boundary. -/
def frZone : Zone :=
  { defaultZone with
    boundary := some 10
    admin_level := some 2
    tags := [("ISO3166-1:alpha2", "FR")] }

def frCountries : List Country := countryFinderFromIter (fun _ => 0) [frZone]

end Cosmogony

namespace Cosmogony

/-! ### Theorems: merger -/

theorem optMap_updatedId_zero (o : Option Nat) :
    o.map (getUpdatedId { idOffset := 0 }) = o := by
  cases o <;> rfl

theorem mergeStep_offset_zero (z : Zone) (acc : List Zone × Nat) :
    mergeStep { idOffset := 0 } acc z = (acc.1 ++ [z], max acc.2 z.id) := by
  simp only [mergeStep, getUpdatedId, Nat.add_zero, optMap_updatedId_zero]

theorem readCosmogony_zero_fst (input : List Zone) :
    (readCosmogony { idOffset := 0 } input).1 = input := by
  unfold readCosmogony
  simp only []
  suffices h : ∀ (pre : List Zone) (m : Nat),
      (input.foldl (mergeStep { idOffset := 0 }) (pre, m)).1 = pre ++ input by
    simpa using h [] 0
  induction input with
  | nil => intro pre m; simp
  | cons z zs ih =>
    intro pre m
    rw [List.foldl_cons, mergeStep_offset_zero]
    rw [ih (pre ++ [z]) (max m z.id)]
    simp

/-! ### Theorems: zone typer -/

/-- C2: when typing a zone against a country's rule set, an
`overrides.id_rules` entry for the zone's osm_id decides the result
immediately (its value may be the explicit "no type" `none`), taking
precedence over any `contained_by` override and over the
`type_by_level` lookup, for every zone, rule set and inclusion list. -/
theorem id_rules_win (r : CountryRules) (zone : Zone) (incl : List Nat)
    (all : List Zone) (v : Option ZoneType)
    (h : List.lookup zone.osm_id r.idRules = some v) :
    getZoneType r zone incl all = v := by
  unfold getZoneType
  rw [h]

theorem id_rules_win_witness :
    List.lookup zoneZ5.osm_id testRules.idRules = some (some .CityDistrict) ∧
    getZoneType testRules zoneZ5 [] [] = some .CityDistrict :=
  ⟨by decide, id_rules_win testRules zoneZ5 [] [] (some .CityDistrict) (by decide)⟩

/-- C10: for a zone whose `admin_level` is `None` and to which no
override rule applies, `get_zone_type` looks the string `"0"` up in the
country's `type_by_level` map — the zone is typed exactly when the rule
set maps level `"0"` (rather than always failing with UnknownLevel). -/
theorem level_none_uses_zero (r : CountryRules) (zone : Zone)
    (incl : List Nat) (all : List Zone)
    (hal : zone.admin_level = none)
    (hov : getOverridedType r zone incl all = none) :
    getZoneType r zone incl all = List.lookup "0" r.typeByLevel := by
  have h0 : toString (zone.admin_level.getD 0) = "0" := by
    rw [hal]; decide
  unfold getOverridedType at hov
  unfold getZoneType
  cases hlk : List.lookup zone.osm_id r.idRules with
  | some o => rw [hlk] at hov; simp at hov
  | none =>
    rw [hlk] at hov
    simp only [] at hov ⊢
    by_cases hemp : r.containedBy.isEmpty
    · rw [if_pos hemp, h0]
    · rw [if_neg hemp] at hov ⊢
      split
      · rename_i rules hfc
        rw [hfc] at hov
        simp only [Option.map_eq_none'] at hov
        rw [hov, h0]
      · rw [h0]

theorem level_none_uses_zero_witness :
    defaultZone.admin_level = none ∧
    getOverridedType zeroLevelRules defaultZone [] [] = none ∧
    getZoneType zeroLevelRules defaultZone [] [] = some .Country :=
  ⟨rfl, by decide, by
    have h := level_none_uses_zero zeroLevelRules defaultZone [] [] rfl (by decide)
    rw [h]; decide⟩

/-! ### Theorems: hierarchy builder -/

theorem minStep_cases (acc : Option Zone) (c : Zone) :
    minStep acc c = some c ∨ minStep acc c = acc := by
  cases acc with
  | none => left; rfl
  | some m =>
    by_cases h : oztKey c.zone_type < oztKey m.zone_type
    · left; simp [minStep, h]
    · right; simp [minStep, h]

theorem foldl_minStep_mem :
    ∀ (l : List Zone) (acc : Option Zone) {c : Zone},
      l.foldl minStep acc = some c → c ∈ l ∨ acc = some c := by
  intro l
  induction l with
  | nil => intro acc c h; right; exact h
  | cons x xs ih =>
    intro acc c h
    rw [List.foldl_cons] at h
    rcases ih (minStep acc x) h with h1 | h2
    · left; exact List.mem_cons_of_mem x h1
    · rcases minStep_cases acc x with h3 | h4
      · left; rw [h3] at h2; cases h2; exact List.mem_cons_self x xs
      · right; rw [← h4]; exact h2

theorem minByKeyOZT_mem {l : List Zone} {c : Zone}
    (h : minByKeyOZT l = some c) : c ∈ l := by
  rcases foldl_minStep_mem l none h with h1 | h2
  · exact h1
  · exact absurd h2 (by simp)

theorem isAdmin_congr {a b : Zone} (h : a.zone_type = b.zone_type) :
    a.isAdmin = b.isAdmin := by
  unfold Zone.isAdmin
  rw [h]

theorem hierInv_init (zones₀ : List Zone) : hierInv zones₀ zones₀ 0 := by
  refine ⟨rfl, ?_, ?_⟩
  · intro j q h; exact ⟨q, h, rfl, rfl⟩
  · intro j hj; omega

theorem hierInv_step (zones₀ zs : List Zone) (incl : List (List Nat)) (done : Nat)
    (hids : ∀ (j : Nat) (q : Zone), zones₀[j]? = some q → q.id = j)
    (hinv : hierInv zones₀ zs done) :
    hierInv zones₀ (setParentAt incl zs done) (done + 1) := by
  obtain ⟨hlen, hsame, hpar⟩ := hinv
  unfold setParentAt
  cases hz : zs[done]? with
  | none =>
    refine ⟨hlen, hsame, ?_⟩
    intro j hj q p hq hp
    rcases Nat.lt_or_ge j done with hlt | hge
    · exact hpar j hlt q p hq hp
    · have : j = done := by omega
      subst this
      rw [hz] at hq
      cases hq
  | some z =>
    have hdl : done < zs.length := by
      by_contra hcon
      rw [List.getElem?_eq_none (by omega)] at hz
      cases hz
    set cands := ((incl.getD done []).filterMap (fun cIdx => zs[cIdx]?)).filter
      (fun c => canBeChildOf z c) with hcands
    set z' : Zone := { z with parent := (minByKeyOZT cands).map (fun c => c.id) }
      with hz'
    refine ⟨by rw [List.length_set]; exact hlen, ?_, ?_⟩
    · intro j q hq
      by_cases hj : done = j
      · subst hj
        rw [List.getElem?_set_self hdl] at hq
        cases hq
        obtain ⟨q₀, hq₀, hcore⟩ := hsame done z hz
        exact ⟨q₀, hq₀, hcore.1, hcore.2⟩
      · rw [List.getElem?_set_ne hj] at hq
        exact hsame j q hq
    · intro j hj q p hq hp
      by_cases hjd : done = j
      · subst hjd
        rw [List.getElem?_set_self hdl] at hq
        cases hq
        have hp' : (minByKeyOZT cands).map (fun c => c.id) = some p := hp
        rw [Option.map_eq_some'] at hp'
        obtain ⟨c, hc, hcid⟩ := hp'
        have hcmem : c ∈ cands := minByKeyOZT_mem hc
        rw [hcands, List.mem_filter] at hcmem
        obtain ⟨hcfm, hchild⟩ := hcmem
        rw [List.mem_filterMap] at hcfm
        obtain ⟨cIdx, _, hcget⟩ := hcfm
        obtain ⟨c₀, hc₀, hccore⟩ := hsame cIdx c hcget
        have hcidx : c.id = cIdx := by rw [hccore.1, hids cIdx c₀ hc₀]
        have hpidx : p = cIdx := by rw [← hcid, hcidx]
        subst hpidx
        refine ⟨c₀, hc₀, ?_, ?_⟩
        · unfold canBeChildOf at hchild
          rw [Bool.and_eq_true] at hchild
          rw [← isAdmin_congr hccore.2]
          exact hchild.1
        · intro hadm
          have hzadm : z.isAdmin = true := hadm
          unfold canBeChildOf at hchild
          rw [Bool.and_eq_true, Bool.or_eq_true] at hchild
          rcases hchild.2 with hne | hlt
          · rw [Bool.not_eq_true'] at hne
            rw [hzadm] at hne
            cases hne
          · have : oztLt z.zone_type c.zone_type := of_decide_eq_true hlt
            rw [← hccore.2]
            exact this
      · rw [List.getElem?_set_ne hjd] at hq
        have hjlt : j < done := by omega
        exact hpar j hjlt q p hq hp

theorem hierInv_fold (zones₀ : List Zone) (incl : List (List Nat))
    (hids : ∀ (j : Nat) (q : Zone), zones₀[j]? = some q → q.id = j) (n : Nat) :
    hierInv zones₀ ((List.range n).foldl (setParentAt incl) zones₀) n := by
  induction n with
  | zero => exact hierInv_init zones₀
  | succ n ih =>
    rw [List.range_succ, List.foldl_append, List.foldl_cons, List.foldl_nil]
    exact hierInv_step zones₀ _ incl n hids ih

/-- C1 (amended): after `build_hierarchy`, every stored parent index `p`
names an administrative zone, and when the child itself is
administrative the parent's zone_type is strictly greater.  A
non-administrative child (`zone_type` `None` or `NonAdministrative`) is
exempt from the order constraint — `NonAdministrative` is the greatest
variant of the derived order, so the claim's unconditional
`zones[p].zone_type > z.zone_type` fails for it (see the
counterexample). -/
theorem build_hierarchy_parent_admin (zones : List Zone)
    (inclusions : List (List Nat))
    (hids : ∀ (j : Nat) (q : Zone), zones[j]? = some q → q.id = j)
    (i p : Nat) (child : Zone)
    (hchild : (buildHierarchy zones inclusions)[i]? = some child)
    (hpar : child.parent = some p) :
    ∃ q, (buildHierarchy zones inclusions)[p]? = some q ∧ q.isAdmin = true ∧
      (child.isAdmin = true → oztLt child.zone_type q.zone_type) := by
  have hinv := hierInv_fold zones inclusions hids zones.length
  obtain ⟨hlen, hsame, hprop⟩ := hinv
  have hout : buildHierarchy zones inclusions =
      (List.range zones.length).foldl (setParentAt inclusions) zones := rfl
  rw [hout] at hchild ⊢
  have hi : i < zones.length := by
    obtain ⟨h1, -⟩ := List.getElem?_eq_some.mp hchild
    omega
  obtain ⟨q₀, hq₀, hq₀adm, hq₀lt⟩ := hprop i hi child p hchild hpar
  have hpl : p < zones.length := by
    obtain ⟨h2, -⟩ := List.getElem?_eq_some.mp hq₀
    omega
  have hpl' : p < ((List.range zones.length).foldl (setParentAt inclusions)
      zones).length := by omega
  have hqex : ∃ q, ((List.range zones.length).foldl (setParentAt inclusions)
      zones)[p]? = some q := by
    rw [List.getElem?_eq_getElem hpl']
    exact ⟨_, rfl⟩
  obtain ⟨q, hq⟩ := hqex
  obtain ⟨q₀', hq₀', hcore⟩ := hsame p q hq
  have : q₀' = q₀ := by rw [hq₀] at hq₀'; cases hq₀'; rfl
  subst this
  refine ⟨q, hq, ?_, ?_⟩
  · rw [isAdmin_congr hcore.2]; exact hq₀adm
  · intro hadm
    have := hq₀lt hadm
    rw [← hcore.2] at this
    exact this

theorem build_hierarchy_parent_admin_witness :
    ∃ q, (buildHierarchy wZones wIncl)[0]? = some q ∧ q.isAdmin = true ∧
      ({ wState with parent := some 0 }.isAdmin = true →
        oztLt { wState with parent := some 0 }.zone_type q.zone_type) :=
  build_hierarchy_parent_admin wZones wIncl
    (by
      intro j q h
      match j with
      | 0 => simp [wZones] at h; rw [← h]; rfl
      | 1 => simp [wZones] at h; rw [← h]; rfl
      | n + 2 => simp [wZones] at h)
    1 0 { wState with parent := some 0 } (by decide) (by decide)

/-- C1 counterexample: in the run realised by the repository's
`hierarchy_test_parent_only_admin` test, a `NonAdministrative` zone is
attached to a `Country` parent, and `Country` is NOT strictly greater
than `NonAdministrative` in the derived `ZoneType` order — refuting the
claim's unconditional `zones[p].zone_type > z.zone_type`. -/
theorem build_hierarchy_order_counterexample :
    (buildHierarchy cexZones wIncl)[1]? =
      some { cexNonAdmin with parent := some 0 } ∧
    (buildHierarchy cexZones wIncl)[0]? = some wCountry ∧
    wCountry.isAdmin = true ∧
    ¬ oztLt { cexNonAdmin with parent := some 0 }.zone_type
        wCountry.zone_type := by
  refine ⟨by decide, by decide, by decide, ?_⟩
  intro h
  exact absurd h (by decide)

/-! ### Theorems: stable sort -/

theorem mem_insertS (lt : α → α → Bool) (x y : α) (l : List α) :
    y ∈ insertS lt x l ↔ y = x ∨ y ∈ l := by
  induction l with
  | nil => simp [insertS]
  | cons w ws ih =>
    by_cases h : lt w x = true
    · simp only [insertS, if_pos h, List.mem_cons, ih]
      tauto
    · simp only [insertS, if_neg h, List.mem_cons]

theorem mem_sortS (lt : α → α → Bool) (y : α) (l : List α) :
    y ∈ sortS lt l ↔ y ∈ l := by
  induction l with
  | nil => simp [sortS]
  | cons x xs ih =>
    simp only [sortS, mem_insertS, List.mem_cons, ih]

theorem pairwise_insertS (lt : α → α → Bool) (le : α → α → Prop)
    (hcompat : ∀ a b, lt a b = true → le a b)
    (htot : ∀ a b, lt a b = false → le b a)
    (htrans : ∀ a b c, le a b → le b c → le a c)
    (x : α) (l : List α) (h : List.Pairwise le l) :
    List.Pairwise le (insertS lt x l) := by
  induction l with
  | nil => simp [insertS]
  | cons w ws ih =>
    rw [List.pairwise_cons] at h
    obtain ⟨h1, h2⟩ := h
    by_cases hlt : lt w x = true
    · rw [insertS, if_pos hlt]
      rw [List.pairwise_cons]
      refine ⟨?_, ih h2⟩
      intro b hb
      rcases (mem_insertS lt x b ws).mp hb with hbx | hbw
      · subst hbx; exact hcompat w b hlt
      · exact h1 b hbw
    · rw [insertS, if_neg hlt]
      rw [List.pairwise_cons]
      refine ⟨?_, List.pairwise_cons.mpr ⟨h1, h2⟩⟩
      intro b hb
      have hxw : le x w := htot w x (Bool.not_eq_true _ ▸ hlt)
      rcases List.mem_cons.mp hb with hbw | hbws
      · subst hbw; exact hxw
      · exact htrans x w b hxw (h1 b hbws)

theorem pairwise_sortS (lt : α → α → Bool) (le : α → α → Prop)
    (hcompat : ∀ a b, lt a b = true → le a b)
    (htot : ∀ a b, lt a b = false → le b a)
    (htrans : ∀ a b c, le a b → le b c → le a c)
    (l : List α) : List.Pairwise le (sortS lt l) := by
  induction l with
  | nil => simp [sortS]
  | cons x xs ih =>
    exact pairwise_insertS lt le hcompat htot htrans x (sortS lt xs) ih

theorem listCharLtB_iff (as bs : List Char) :
    listCharLtB as bs = true ↔ as < bs := by
  induction as generalizing bs with
  | nil =>
    cases bs with
    | nil =>
      constructor
      · intro h; simp [listCharLtB] at h
      · intro h; cases h
    | cons b bs' =>
      constructor
      · intro _; exact List.Lex.nil
      · intro _; rfl
  | cons a as' ih =>
    cases bs with
    | nil =>
      constructor
      · intro h; simp [listCharLtB] at h
      · intro h; cases h
    | cons b bs' =>
      by_cases hab : a < b
      · constructor
        · intro _; exact List.Lex.rel hab
        · intro _; simp [listCharLtB, hab]
      · by_cases hba : b < a
        · constructor
          · intro h; simp [listCharLtB, hab, hba] at h
          · intro h
            cases h with
            | rel h' => exact absurd h' hab
            | cons h' => exact absurd hba (lt_irrefl a)
        · have heq : a = b := le_antisymm (le_of_not_lt hba) (le_of_not_lt hab)
          subst heq
          constructor
          · intro h
            have h' := (ih bs').mp (by simpa [listCharLtB, lt_irrefl] using h)
            exact List.Lex.cons h'
          · intro h
            have htail : as' < bs' := by
              cases h with
              | rel h' => exact absurd h' (lt_irrefl a)
              | cons h' => exact h'
            have := (ih bs').mpr htail
            simpa [listCharLtB, lt_irrefl] using this

theorem strLtB_iff (a b : String) : strLtB a b = true ↔ a < b := by
  rw [String.lt_iff_toList_lt]
  exact listCharLtB_iff a.data b.data

theorem pairwise_sortS_strings (l : List String) :
    List.Pairwise (fun a b : String => a ≤ b) (sortS strLtB l) := by
  refine pairwise_sortS strLtB (fun a b : String => a ≤ b) ?_ ?_ ?_ l
  · intro a b h
    exact le_of_lt ((strLtB_iff a b).mp h)
  · intro a b h
    refine le_of_not_lt ?_
    intro hlt
    rw [← strLtB_iff a b] at hlt
    rw [h] at hlt
    cases hlt
  · intro a b c h1 h2
    exact le_trans h1 h2

theorem mem_of_head?_some {l : List α} {a : α} (h : l.head? = some a) :
    a ∈ l := by
  have hc := List.eq_cons_of_mem_head? (Option.mem_def.mpr h)
  rw [hc]
  exact List.mem_cons_self _ _

/-! ### Theorems: country codes -/

/-- C9 (amended): the typer's rule-corpus keys are the UPPER-cased file
stems, but the country finder stores and returns the LOWER-cased
`ISO3166-1:alpha2` tag of the selected country zone (the source
lower-cases at `CountryFinder::from_iter`), not the upper-cased tag the
claim states. -/
theorem country_code_casing :
    (∀ (files : List (String × Option CountryRules)) (k : String)
      (r : CountryRules), (k, r) ∈ readLibpostalYamlFolder files →
        ∃ stem, k = strToUpper stem) ∧
    (∀ (bboxO : MPoly → Option BRect) (rtreeGet : BRect → List Country)
      (containsO : GGeom → MPoly → Bool) (prepare : Zone → GGeom)
      (zones : List Zone) (z : Zone) (code : String),
      (∀ (r : BRect) (c : Country), c ∈ rtreeGet r →
        c ∈ countryFinderFromIter prepare zones) →
      findZoneCountry bboxO rtreeGet containsO z = some code →
      ∃ zc tag, zc ∈ zones ∧
        lookupTag zc.tags "ISO3166-1:alpha2" = some tag ∧
        code = strToLower tag) := by
  constructor
  · intro files k r hmem
    unfold readLibpostalYamlFolder at hmem
    obtain ⟨f, -, hf⟩ := List.mem_filterMap.mp hmem
    obtain ⟨rules, -, heq⟩ := Option.map_eq_some'.mp hf
    exact ⟨f.1, (Prod.mk.injEq _ _ _ _ ▸ heq).1.symm⟩
  · intro bboxO rtreeGet containsO prepare zones z code hsub hf
    unfold findZoneCountry at hf
    cases hbd : z.boundary with
    | none => rw [hbd] at hf; cases hf
    | some b =>
      rw [hbd] at hf
      simp only [] at hf
      cases hbx : bboxO b with
      | none => rw [hbx] at hf; cases hf
      | some r =>
        rw [hbx] at hf
        simp only [] at hf
        obtain ⟨c, hc, hcode⟩ := Option.map_eq_some'.mp hf
        have hcf := mem_of_head?_some hc
        have hcs := (List.mem_filter.mp hcf).1
        have hcr := (mem_sortS _ c _).mp hcs
        have hci := hsub r c hcr
        unfold countryFinderFromIter at hci
        obtain ⟨zc, hzc, hmk⟩ := List.mem_filterMap.mp hci
        obtain ⟨tag, htag, hcmk⟩ := Option.map_eq_some'.mp hmk
        refine ⟨zc, tag, hzc, htag, ?_⟩
        rw [← hcode, ← hcmk]

theorem country_code_casing_witness :
    (∃ stem, ("LU" : String) = strToUpper stem) ∧
    (∃ zc tag, zc ∈ [frZone] ∧
      lookupTag zc.tags "ISO3166-1:alpha2" = some tag ∧
      ("fr" : String) = strToLower tag) := by
  constructor
  · exact country_code_casing.1 [("lu", some zeroLevelRules)] "LU"
      zeroLevelRules
      (by
        have h : readLibpostalYamlFolder [("lu", some zeroLevelRules)] =
            [("LU", zeroLevelRules)] := rfl
        rw [h]
        exact List.mem_cons_self _ _)
  · exact country_code_casing.2 (fun _ => some 0) (fun _ => frCountries)
      (fun _ _ => true) (fun _ => 0) [frZone] frZone "fr"
      (fun _ c h => h) (by decide)

/-- C9 counterexample: a country zone tagged `ISO3166-1:alpha2 = "FR"`
makes the country finder return `"fr"`, not the upper-cased `"FR"` the
claim states. -/
theorem country_code_case_counterexample :
    findZoneCountry (fun _ => some 0) (fun _ => frCountries)
      (fun _ _ => true) frZone = some "fr" ∧
    lookupTag frZone.tags "ISO3166-1:alpha2" = some "FR" ∧
    strToUpper "FR" = "FR" ∧ ("fr" : String) ≠ "FR" := by
  refine ⟨by decide, by decide, by decide, by decide⟩

/-! ### Theorems: Voronoi parent selection -/

theorem pairwise_sortS_ozt (l : List Zone) :
    List.Pairwise (fun a b : Zone => oztKey a.zone_type ≤ oztKey b.zone_type)
      (sortS (fun a b => decide (oztLt a.zone_type b.zone_type)) l) := by
  refine pairwise_sortS _ _ ?_ ?_ ?_ l
  · intro a b h
    exact Nat.le_of_lt (of_decide_eq_true h)
  · intro a b h
    have : ¬ oztLt a.zone_type b.zone_type := of_decide_eq_false h
    unfold oztLt at this
    omega
  · intro a b c h1 h2
    omega

/-- The selected parent comes from the fetched candidate list. -/
theorem getParent_fetch_mem (eng : GeoEngine) (tree : Zone → List Nat)
    (place : Zone) (zones : List Zone) (p : Zone)
    (h : getParent eng tree place zones = some p) :
    ∃ idx ∈ tree place, zones[idx]? = some p := by
  unfold getParent at h
  have hpfil := mem_of_head?_some h
  have hp1 := List.mem_filter.mp hpfil
  have hp2 := (mem_sortS _ p _).mp hp1.1
  have hp3 := List.mem_filter.mp hp2
  exact List.mem_filterMap.mp hp3.1

/-- C3 (amended): `get_parent` selects, among the R-tree candidates
that have SOME `zone_type` (the source has no `>= City` filter) and that
contain the place's center, a zone with minimal `zone_type`. -/
theorem get_parent_min (eng : GeoEngine) (tree : Zone → List Nat)
    (place : Zone) (zones : List Zone) (p : Zone)
    (h : getParent eng tree place zones = some p) :
    (∃ idx ∈ tree place, zones[idx]? = some p) ∧
    p.zone_type.isSome = true ∧
    containsCenter eng p place = true ∧
    (∀ q : Zone, (∃ idx ∈ tree place, zones[idx]? = some q) →
      q.zone_type.isSome = true → containsCenter eng q place = true →
      oztKey p.zone_type ≤ oztKey q.zone_type) := by
  have hfetch := getParent_fetch_mem eng tree place zones p h
  unfold getParent at h
  have hpfil := mem_of_head?_some h
  have hp1 := List.mem_filter.mp hpfil
  have hp2 := (mem_sortS _ p _).mp hp1.1
  have hp3 := List.mem_filter.mp hp2
  refine ⟨hfetch, hp3.2, hp1.2, ?_⟩
  intro q hq hqs hqc
  have hq1 : q ∈ ((tree place).filterMap (fun idx => zones[idx]?)).filter
      (fun z => z.zone_type.isSome) :=
    List.mem_filter.mpr ⟨List.mem_filterMap.mpr hq, hqs⟩
  have hq2 := (mem_sortS (fun a b : Zone =>
    decide (oztLt a.zone_type b.zone_type)) q _).mpr hq1
  have hq3 : q ∈ (sortS (fun a b : Zone =>
      decide (oztLt a.zone_type b.zone_type))
      (((tree place).filterMap (fun idx => zones[idx]?)).filter
        (fun z => z.zone_type.isSome))).filter
      (fun z => containsCenter eng z place) :=
    List.mem_filter.mpr ⟨hq2, hqc⟩
  have hpw := (pairwise_sortS_ozt
    (((tree place).filterMap (fun idx => zones[idx]?)).filter
      (fun z => z.zone_type.isSome))).filter
    (fun z => containsCenter eng z place)
  have hcons := List.eq_cons_of_mem_head? (Option.mem_def.mpr h)
  rw [hcons] at hq3 hpw
  rcases List.mem_cons.mp hq3 with heq | htail
  · subst heq; exact Nat.le_refl _
  · exact (List.pairwise_cons.mp hpw).1 q htail

theorem get_parent_min_witness :
    (∃ idx ∈ (fun (_ : Zone) => [0]) cexPlace, c6Zones[idx]? = some c6Parent) ∧
    c6Parent.zone_type.isSome = true ∧
    containsCenter c6Eng c6Parent cexPlace = true ∧
    (∀ q : Zone, (∃ idx ∈ (fun (_ : Zone) => [0]) cexPlace,
        c6Zones[idx]? = some q) →
      q.zone_type.isSome = true → containsCenter c6Eng q cexPlace = true →
      oztKey c6Parent.zone_type ≤ oztKey q.zone_type) :=
  get_parent_min c6Eng (fun _ => [0]) cexPlace c6Zones c6Parent (by decide)

/-- C3 counterexample: a `Suburb` zone containing the place's center is
selected as the parent candidate although its `zone_type` is strictly
below `City`; the claim's selection (`getParentSpec`, with the
`>= City` filter) returns nothing on the same input. -/
theorem get_parent_city_filter_counterexample :
    getParent c6Eng (fun _ => [0]) cexPlace [cexSuburb] = some cexSuburb ∧
    getParentSpec c6Eng (fun _ => [0]) cexPlace [cexSuburb] = none ∧
    cexSuburb.zone_type = some .Suburb ∧ ztLt .Suburb .City := by
  refine ⟨by decide, by decide, by decide, by decide⟩

/-! ### Theorems: Voronoi synthesis -/

theorem extrude_parent (eng : GeoEngine) (z : Zone) (towns : List Zone) :
    (extrudeExistingTown eng z towns).1.parent = z.parent := by
  unfold extrudeExistingTown
  split
  · rfl
  · split
    · rfl
    · split
      · rfl
      · split
        · split
          · rfl
          · rfl
        · rfl

theorem extrude_zone_type (eng : GeoEngine) (z : Zone) (towns : List Zone) :
    (extrudeExistingTown eng z towns).1.zone_type = z.zone_type := by
  unfold extrudeExistingTown
  split
  · rfl
  · split
    · rfl
    · split
      · rfl
      · split
        · split
          · rfl
          · rfl
        · rfl

theorem updateBbox_parent (eng : GeoEngine) (z : Zone) :
    (updateBboxFromBoundary eng z).parent = z.parent := by
  unfold updateBboxFromBoundary
  split
  · rfl
  · rfl

/-- Every city emitted by `compute_voronoi` is parented to the zone at
the given parent index. -/
theorem computeVoronoi_parent (eng : GeoEngine) (tree : Zone → List Nat)
    (parentIdx : Nat) (places zones : List Zone) (z : Zone)
    (hz : z ∈ computeVoronoi eng tree parentIdx places zones) :
    ∃ parent, zones[parentIdx]? = some parent ∧ z.parent = some parent.id := by
  unfold computeVoronoi at hz
  split at hz
  · simp at hz
  · rename_i parent hpar
    refine ⟨parent, hpar, ?_⟩
    split at hz
    · simp at hz
    · split at hz
      · simp at hz
      · split at hz
        · split at hz
          · simp at hz
          · rename_i place0 hplace0
            split at hz
            · rw [List.mem_singleton] at hz
              subst hz
              rw [updateBbox_parent, extrude_parent]
              rfl
            · simp at hz
        · split at hz
          · simp at hz
          · split at hz
            · simp at hz
            · rename_i pointsGeom hpg
              split at hz
              · simp at hz
              · rename_i voronois hvor
                split at hz
                · simp at hz
                · rename_i len hlen
                  obtain ⟨vor, -, hbody⟩ := List.mem_filterMap.mp hz
                  split at hbody
                  · cases hbody
                  · rename_i pos0 hpos0
                    split at hbody
                    · cases hbody
                    · rename_i pl hpl
                      split at hbody
                      · cases hbody
                      · rename_i s hs
                        cases hbody
                        rw [updateBbox_parent, extrude_parent]

theorem publish_fold_getElem (cities zs : List Zone) (i : Nat) (z : Zone)
    (h : (publishNewCities zs cities)[i]? = some z) :
    zs[i]? = some z ∨ ∃ c ∈ cities, z.parent = c.parent := by
  induction cities generalizing zs with
  | nil => left; exact h
  | cons c cs ih =>
    have h2 : (publishNewCities (zs ++ [{ c with id := zs.length }]) cs)[i]? =
        some z := h
    rcases ih (zs ++ [{ c with id := zs.length }]) h2 with h1 | ⟨c0, hc0, hp0⟩
    · rcases Nat.lt_trichotomy i zs.length with hlt | heq | hgt
      · left
        rw [List.getElem?_append, if_pos hlt] at h1
        exact h1
      · right
        subst heq
        rw [List.getElem?_append, if_neg (by omega), Nat.sub_self,
          List.getElem?_cons_zero, Option.some.injEq] at h1
        refine ⟨c, List.mem_cons_self _ _, ?_⟩
        rw [← h1]
      · exfalso
        rw [List.getElem?_append, if_neg (by omega),
          List.getElem?_eq_none (by simp; omega)] at h1
        cases h1
    · right
      exact ⟨c0, List.mem_cons_of_mem c hc0, hp0⟩

theorem publish_all_getElem (lists : List (List Zone)) (zs : List Zone)
    (i : Nat) (z : Zone)
    (h : (lists.foldl publishNewCities zs)[i]? = some z) :
    zs[i]? = some z ∨ ∃ cities ∈ lists, ∃ c ∈ cities, z.parent = c.parent := by
  induction lists generalizing zs with
  | nil => left; exact h
  | cons cities rest ih =>
    rw [List.foldl_cons] at h
    rcases ih (publishNewCities zs cities) h with h1 | ⟨cs, hcs, c, hc, hp⟩
    · rcases publish_fold_getElem cities zs i z h1 with h2 | ⟨c, hc, hp⟩
      · left; exact h2
      · right; exact ⟨cities, List.mem_cons_self _ _, c, hc, hp⟩
    · right; exact ⟨cs, List.mem_cons_of_mem _ hcs, c, hc, hp⟩

theorem addToGroup_key (m : List (Nat × List Zone)) (k0 : Nat) (v0 : Zone)
    (k : Nat) (vs : List Zone) (h : (k, vs) ∈ addToGroup m k0 v0) :
    k = k0 ∨ ∃ vs0, (k, vs0) ∈ m := by
  induction m with
  | nil =>
    simp [addToGroup] at h
    left; exact h.1
  | cons p rest ih =>
    obtain ⟨pk, pvs⟩ := p
    unfold addToGroup at h
    by_cases hk : pk == k0
    · rw [if_pos hk] at h
      rcases List.mem_cons.mp h with heq | hmem
      · left
        have hke : k = pk := ((Prod.mk.injEq _ _ _ _).mp heq).1
        have hpk : pk = k0 := by simpa using hk
        exact hke.trans hpk
      · right; exact ⟨vs, List.mem_cons_of_mem _ hmem⟩
    · rw [if_neg hk] at h
      rcases List.mem_cons.mp h with heq | hmem
      · right
        have hke : k = pk := ((Prod.mk.injEq _ _ _ _).mp heq).1
        refine ⟨pvs, ?_⟩
        rw [hke]
        exact List.mem_cons_self _ _
      · rcases ih hmem with h1 | ⟨vs0, h2⟩
        · left; exact h1
        · right; exact ⟨vs0, List.mem_cons_of_mem _ h2⟩

theorem groupPairs_key (ps : List (Nat × Zone)) (k : Nat) (vs : List Zone)
    (h : (k, vs) ∈ groupPairs ps) : ∃ v, (k, v) ∈ ps := by
  suffices hgen : ∀ (m : List (Nat × List Zone)),
      (k, vs) ∈ ps.foldl (fun m kv => addToGroup m kv.1 kv.2) m →
      (∃ v, (k, v) ∈ ps) ∨ ∃ vs0, (k, vs0) ∈ m by
    rcases hgen [] h with h1 | ⟨vs0, h2⟩
    · exact h1
    · simp at h2
  clear h
  induction ps with
  | nil =>
    intro m h
    right
    exact ⟨vs, h⟩
  | cons p rest ih =>
    intro m h
    rw [List.foldl_cons] at h
    rcases ih (addToGroup m p.1 p.2) h with h1 | ⟨vs0, h2⟩
    · rcases h1 with ⟨v, hv⟩
      left
      exact ⟨v, List.mem_cons_of_mem _ hv⟩
    · rcases addToGroup_key m p.1 p.2 k vs0 h2 with hk | ⟨vs1, h3⟩
      · left
        subst hk
        exact ⟨p.2, List.mem_cons_self _ _⟩
      · right
        exact ⟨vs1, h3⟩

theorem candidatePairs_spec (eng : GeoEngine) (tree : Zone → List Nat)
    (zones places : List Zone) (k : Nat) (pl : Zone)
    (h : (k, pl) ∈ candidatePairs eng tree zones places) :
    ∃ (p : Zone) (t : ZoneType), getParent eng tree pl zones = some p ∧
      p.id = k ∧ p.zone_type = some t ∧ ztLt .City t ∧ ztLt t .Country := by
  unfold candidatePairs at h
  obtain ⟨place, -, hbody⟩ := List.mem_filterMap.mp h
  split at hbody
  · cases hbody
  · split at hbody
    · cases hbody
    · rename_i p hp
      split at hbody
      · rename_i t ht
        split at hbody
        · rename_i hbounds
          rw [Option.some.injEq, Prod.mk.injEq] at hbody
          obtain ⟨hk, hpl⟩ := hbody
          subst hpl
          rw [Bool.and_eq_true] at hbounds
          exact ⟨p, t, hp, hk, ht,
            of_decide_eq_true hbounds.1, of_decide_eq_true hbounds.2⟩
        · cases hbody
      · cases hbody

/-- C6: every city zone synthesized by the Voronoi augmentor is attached
to a parent whose `zone_type` is strictly greater than `City` and
strictly less than `Country` (in particular never a `Country`): the
candidate filter in `compute_additional_cities` only lets such parents
through, and `compute_voronoi` clips against exactly the grouped
parent. -/
theorem voronoi_city_parent_bounds (eng : GeoEngine) (tree : Zone → List Nat)
    (zones places : List Zone)
    (hids : ∀ (j : Nat) (q : Zone), zones[j]? = some q → q.id = j)
    (i : Nat) (z : Zone)
    (hz : (computeAdditionalCities eng tree zones places)[i]? = some z)
    (hnew : zones.length ≤ i) :
    ∃ (p : Nat) (q : Zone) (t : ZoneType),
      z.parent = some p ∧ zones[p]? = some q ∧ q.zone_type = some t ∧
      ztLt .City t ∧ ztLt t .Country := by
  unfold computeAdditionalCities at hz
  rcases publish_all_getElem _ zones i z hz with h1 | ⟨cities, hcl, c, hcmem, hpar⟩
  · rw [List.getElem?_eq_none hnew] at h1
    cases h1
  · obtain ⟨g, hg, hveq⟩ := List.mem_map.mp hcl
    have hgp := (List.mem_filter.mp hg).1
    obtain ⟨gk, gvs⟩ := g
    obtain ⟨v, hv⟩ := groupPairs_key _ gk gvs hgp
    obtain ⟨p, t, hgetp, hpid, hpt, hb1, hb2⟩ :=
      candidatePairs_spec eng tree zones places gk v hv
    obtain ⟨idx, -, hidx⟩ :=
      getParent_fetch_mem eng tree v zones p hgetp
    have hpidx : p.id = idx := hids idx p hidx
    have hzp : zones[gk]? = some p := by
      rw [← hpid, hpidx]
      exact hidx
    rw [← hveq] at hcmem
    obtain ⟨parent, hparent, hcp⟩ :=
      computeVoronoi_parent eng tree gk gvs zones c hcmem
    have hpe : parent = p := by
      rw [hzp] at hparent
      cases hparent
      rfl
    subst hpe
    refine ⟨parent.id, parent, t, ?_, ?_, hpt, hb1, hb2⟩
    · rw [hpar, hcp]
    · rw [hpid]
      exact hzp

theorem voronoi_city_parent_bounds_witness :
    ∃ (p : Nat) (q : Zone) (t : ZoneType),
      c6NewCity.parent = some p ∧ c6Zones[p]? = some q ∧
      q.zone_type = some t ∧ ztLt .City t ∧ ztLt t .Country :=
  voronoi_city_parent_bounds c6Eng (fun _ => [0]) c6Zones [cexPlace]
    (by
      intro j q h
      match j with
      | 0 => simp [c6Zones] at h; rw [← h]; rfl
      | n + 1 => simp [c6Zones] at h)
    1 c6NewCity (by decide) (by decide)

/-- C7 (amended): for a parent with exactly one grouped place seed
(which always carries a center) and a convertible boundary, the
augmentor emits exactly one synthesized city — the parent's boundary
with intersecting towns subtracted where each difference succeeds —
when `extrude_existing_town` succeeds, and zero cities when it fails;
it never emits the raw parent polygon in the failure case.
`extrude_existing_town` fails only when a boundary conversion to or
from GEOS fails: an individual failed difference (subtraction) step is
logged and skipped, so it does NOT discard the city (see the
counterexample). -/
theorem voronoi_single_place (eng : GeoEngine) (tree : Zone → List Nat)
    (zones : List Zone) (parentIdx : Nat) (parent : Zone) (place : Zone)
    (c : Pt) (b : MPoly) (g : GGeom)
    (hpar : zones[parentIdx]? = some parent)
    (hb : parent.boundary = some b)
    (hg : eng.toGeos b = some g)
    (hc : place.center = some c) :
    computeVoronoi eng tree parentIdx [place] zones =
      (if (extrudeExistingTown eng (seedSingle place parent)
          (getParentNeighbors tree parent zones)).2 then
        [updateBboxFromBoundary eng
          (extrudeExistingTown eng (seedSingle place parent)
            (getParentNeighbors tree parent zones)).1]
      else []) := by
  unfold computeVoronoi
  rw [hpar]
  simp only []
  rw [hb]
  simp only []
  rw [hg]
  simp only []
  have hvp : voronoiPoints [place] = [(0, c)] := by
    unfold voronoiPoints
    have henum : ([place] : List Zone).enum = [(0, place)] := rfl
    rw [henum]
    simp [hc]
  rw [hvp]
  rfl

theorem voronoi_single_place_witness :
    computeVoronoi c6Eng (fun _ => [0]) 0 [cexPlace] c6Zones =
      (if (extrudeExistingTown c6Eng (seedSingle cexPlace c6Parent)
          (getParentNeighbors (fun _ => [0]) c6Parent c6Zones)).2 then
        [updateBboxFromBoundary c6Eng
          (extrudeExistingTown c6Eng (seedSingle cexPlace c6Parent)
            (getParentNeighbors (fun _ => [0]) c6Parent c6Zones)).1]
      else []) :=
  voronoi_single_place c6Eng (fun _ => [0]) c6Zones 0 c6Parent cexPlace
    5 10 20 (by decide) (by decide) (by decide) (by decide)

/-- C7 counterexample: a subtraction (difference) step fails — the town
converts and intersects but `difference` errors — yet the augmentor
still emits exactly one city, and that city's boundary is the raw
parent polygon (handle 10), refuting "emits zero cities if a
subtraction step fails". -/
theorem voronoi_subtraction_failure_counterexample :
    townGeos cex7Eng cex7Town = some 21 ∧
    cex7Eng.intersects 20 21 = true ∧
    cex7Eng.difference 20 21 = none ∧
    getParentNeighbors (fun _ => [0, 1]) c6Parent cex7Zones = [cex7Town] ∧
    computeVoronoi cex7Eng (fun _ => [0, 1]) 0 [cexPlace] cex7Zones =
      [{ cexPlace with
          boundary := some 10
          parent := some 0
          bbox := some 7 }] := by
  refine ⟨by decide, by decide, by decide, by decide, by decide⟩

/-! ### Theorems: labels -/

theorem formatZipCode_eq_spec (l : List String) :
    formatZipCode l = specZipSummary l := by
  match l with
  | [] => rfl
  | [c] => rfl
  | c :: d :: rest =>
    simp only [formatZipCode, specZipSummary, List.length_cons,
      List.head?_cons, Option.getD_some]

/-- C5: `compute_labels` sets a zone's label to the comma-separated join
of the names along its parent chain starting at the zone itself, with
consecutive duplicate names collapsed, and with the zip-code summary
(none → `""`, one → `" (code)"`, several → `" (first-last)"`) appended
to the first element only. -/
theorem compute_labels_default_label (zones : List Zone) (fuel : Nat)
    (z : Zone) :
    (computeLabels zones fuel z).label = specLabel zones fuel z := by
  show createLbl zones fuel z (fun w => w.name) = specLabel zones fuel z
  unfold createLbl specLabel applyZipToFirst
  cases h : dedupConsec ((iterHierarchy zones fuel z).map (fun w => w.name)) with
  | nil => rfl
  | cons first rest => rw [formatZipCode_eq_spec]

/-! ### Theorems: zip codes -/

/-- C4 (amended): every zip-code list a zone receives — from an OSM
relation's `addr:postcode`/`postal_code` tag, or from the postcode
assigner — is sorted ascending; duplicates are NOT removed (see the
counterexample). -/
theorem zip_codes_sorted :
    (∀ (relation : OsmRelation)
      (objects : Nat → Option (List (String × String))) (index : Nat)
      (z : Zone), fromOsm relation objects index = some z →
        List.Pairwise (fun a b : String => a ≤ b) z.zip_codes) ∧
    (∀ (matched : List String) (z : Zone), z.zip_codes = [] →
      List.Pairwise (fun a b : String => a ≤ b)
        (assignPostcodesToZone matched z).zip_codes) := by
  constructor
  · intro relation objects index z h
    unfold fromOsm at h
    cases hname : lookupTag relation.tags "name" with
    | none => rw [hname] at h; cases h
    | some name =>
      rw [hname] at h
      simp only [Option.some.injEq] at h
      rw [← h]
      exact pairwise_sortS_strings _
  · intro matched z hz
    unfold assignPostcodesToZone
    by_cases hcond : (z.boundary.isSome && z.bbox.isSome
        && z.zip_codes.isEmpty) = true
    · rw [if_pos hcond]
      exact pairwise_sortS_strings matched
    · rw [if_neg hcond]
      rw [hz]
      exact List.Pairwise.nil

theorem zip_codes_sorted_witness :
    (fromOsm dupZipRelation (fun _ => none) 0).isSome = true ∧
    List.Pairwise (fun a b : String => a ≤ b)
      ((fromOsm dupZipRelation (fun _ => none) 0).map Zone.zip_codes
        |>.getD []) ∧
    List.Pairwise (fun a b : String => a ≤ b)
      (assignPostcodesToZone ["11", "10"] postcodeTestZone).zip_codes := by
  refine ⟨by decide, ?_, ?_⟩
  · cases hfo : fromOsm dupZipRelation (fun _ => none) 0 with
    | none => simp
    | some z =>
      simp only [Option.map_some', Option.getD_some]
      exact zip_codes_sorted.1 dupZipRelation (fun _ => none) 0 z hfo
  · exact zip_codes_sorted.2 ["11", "10"] postcodeTestZone rfl

/-- C4 counterexample: a relation tagged `addr:postcode = "75;75"`
produces the zip-code list `["75", "75"]` — sorted but with a
duplicate, refuting the claimed duplicate-freeness. -/
theorem zip_codes_dup_counterexample :
    (fromOsm dupZipRelation (fun _ => none) 0).map Zone.zip_codes =
      some ["75", "75"] ∧
    ¬ (["75", "75"] : List String).Nodup := by
  constructor
  · decide
  · decide

/-- C8: merging the single-element list of cosmogonies `[A]` (initial
`id_offset = 0`) writes exactly A's zone stream: every zone keeps its id
and parent unchanged. -/
theorem merge_singleton_id (A : List Zone) : mergeCosmogony [A] = A := by
  unfold mergeCosmogony
  simp only [List.foldl_cons, List.foldl_nil]
  rw [List.nil_append]
  exact readCosmogony_zero_fst A

end Cosmogony
